import Mathlib

/-! Song.cpp, a shallow embedding.

`std::string` is modelled as `List Char` (one `Char` per `char` of the string,
ordered by character code as `std::char_traits<char>` orders them),
`std::vector<std::string>` as `List Str`, and `int` as an `Int` within
`-2147483648 .. 2147483647`: the only arithmetic in the file is `next_id_++`,
which wraps around in 32-bit two's complement (`wrap_int`).  Character
classification follows
the default "C" locale.  Text sent to `std::cout` is kept as a log of messages.
The process-wide `Song::next_id_` is threaded explicitly through the
constructor.
-/

namespace SongCpp

/-- A `std::string`. -/
abbrev Str := List Char

/-! ## Library routines used by Song.cpp -/

/-- `std::isspace` in the "C" locale: space, `\t`, `\n`, `\v`, `\f`, `\r`. -/
def isspace (ch : Char) : Bool :=
  ch.toNat = 32 || (9 ≤ ch.toNat && ch.toNat ≤ 13)

/-- `std::tolower` in the "C" locale: `A`..`Z` go to `a`..`z`, the rest stay. -/
def tolower (ch : Char) : Char :=
  if 65 ≤ ch.toNat ∧ ch.toNat ≤ 90 then Char.ofNat (ch.toNat + 32) else ch

/-- `std::find_if_not(first, last, p)`, as the distance from `first` to the
iterator returned (the length of the range when every element satisfies `p`). -/
def find_if_not (p : Char → Bool) : Str → Nat
  | [] => 0
  | ch :: rest => if p ch then find_if_not p rest + 1 else 0

/-- `std::string::compare`: lexicographic three-way comparison, characters
compared by their codes, a proper prefix being smaller. -/
def string_compare : Str → Str → Ordering
  | [], [] => Ordering.eq
  | [], _ :: _ => Ordering.lt
  | _ :: _, [] => Ordering.gt
  | x :: xs, y :: ys =>
    if x.toNat < y.toNat then Ordering.lt
    else if y.toNat < x.toNat then Ordering.gt
    else string_compare xs ys

/-- `std::string::find(needle)`: the first position at which `needle` occurs,
`none` standing for `npos`. -/
def find (needle : Str) : Str → Option Nat
  | [] => if needle.isPrefixOf [] then some 0 else none
  | ch :: rest =>
    if needle.isPrefixOf (ch :: rest) then some 0
    else (find needle rest).map (· + 1)

/-- The `int` left by an arithmetic result `x`: the 32-bit two's-complement
value, so that `2147483647 + 1` is `-2147483648`. -/
def wrap_int (x : Int) : Int :=
  (x + 2147483648) % 4294967296 - 2147483648

/-- `operator<<(std::ostream&, int)` with the stream's default formatting:
decimal digits, a leading `-` for a negative value. -/
def decimal (n : Int) : Str :=
  if n < 0 then '-' :: Nat.toDigits 10 n.natAbs else Nat.toDigits 10 n.natAbs

/-! ## The anonymous-namespace helpers -/

/-- `trim_copy`: `first` is the first non-space position, `last` is one past
the last non-space position; the result is empty when `first >= last` and the
range `[first, last)` otherwise. -/
def trim_copy (s : Str) : Str :=
  let first := find_if_not isspace s
  let last := s.length - find_if_not isspace s.reverse
  if first ≥ last then [] else (s.drop first).take (last - first)

/-- `to_lower_copy`: `std::transform` with `std::tolower` over a copy. -/
def to_lower_copy (s : Str) : Str :=
  s.map tolower

/-- The loop of `join_tags` from index `i` on: `", "` before every tag but the
one at index 0. -/
def join_tags_loop : Nat → List Str → Str
  | _, [] => []
  | i, tag :: rest =>
    (if i > 0 then ", ".toList else []) ++ tag ++ join_tags_loop (i + 1) rest

/-- `join_tags`. -/
def join_tags (tags : List Str) : Str :=
  if tags.isEmpty then [] else join_tags_loop 0 tags

/-! ## The class -/

/-- The data members of `Song`. -/
structure Song where
  id_ : Int
  title_ : Str
  artist_ : Str
  duration_sec_ : Int
  rating_ : Int
  tags_ : List Str
  valid_ : Bool
deriving DecidableEq

/-- Modelled from the spec: the default member initialisers of `Song`, declared
in Song.h, which is not part of the sources.  A failed construction leaves the
entry "marked invalid, no further fields populated, no id assigned", so the flag
starts false; the strings and the tag vector start empty as every
default-constructed `std::string` and `std::vector` does; the three integer
defaults are not stated anywhere and stay parameters. -/
def Song.unpopulated (id0 duration0 rating0 : Int) : Song :=
  { id_ := id0, title_ := [], artist_ := [], duration_sec_ := duration0,
    rating_ := rating0, tags_ := [], valid_ := false }

/-- What a constructor call leaves behind: the object, the static counter
`Song::next_id_` and the text written to `std::cout`. -/
structure Built where
  song : Song
  next_id_ : Int
  out : List String
deriving DecidableEq

/-- What a member-function call leaves behind: the returned `bool`, the object
and the text written to `std::cout`. -/
structure Outcome where
  ret : Bool
  song : Song
  out : List String
deriving DecidableEq

/-- `Song::Song(title, artist, duration_sec, rating)`, run on the object `self`
as its member initialisers left it and on the current value of `next_id_`;
`id_ = next_id_++` stores the old counter and leaves `wrap_int (next_id_ + 1)`. -/
def Song.ctor (self : Song) (next_id_ : Int) (title artist : Str)
    (duration_sec rating : Int) : Built :=
  let cleanTitle := trim_copy title
  let cleanArtist := trim_copy artist
  if cleanTitle.isEmpty then
    ⟨self, next_id_, ["[错误] 标题不能为空\n"]⟩
  else if cleanArtist.isEmpty then
    ⟨self, next_id_, ["[错误] 艺人不能为空\n"]⟩
  else if duration_sec ≤ 0 then
    ⟨self, next_id_, ["[错误] 时长必须为正整数（秒）\n"]⟩
  else if rating < 1 ∨ rating > 5 then
    ⟨self, next_id_, ["[错误] 评分必须在 1...5 之间\n"]⟩
  else
    ⟨{ self with id_ := next_id_, title_ := cleanTitle, artist_ := cleanArtist,
                 duration_sec_ := duration_sec, rating_ := rating, valid_ := true },
     wrap_int (next_id_ + 1), []⟩

/-- `Song::set_title`. -/
def Song.set_title (self : Song) (t : Str) : Outcome :=
  let cleanTitle := trim_copy t
  if cleanTitle.isEmpty then
    ⟨false, self, ["[提示] 标题不能为空，已忽略本次修改\n"]⟩
  else
    ⟨true, { self with title_ := cleanTitle }, []⟩

/-- `Song::set_artist`. -/
def Song.set_artist (self : Song) (a : Str) : Outcome :=
  let cleanArtist := trim_copy a
  if cleanArtist.isEmpty then
    ⟨false, self, ["[提示] 艺人不能为空，已忽略本次修改\n"]⟩
  else
    ⟨true, { self with artist_ := cleanArtist }, []⟩

/-- `Song::set_duration`. -/
def Song.set_duration (self : Song) (sec : Int) : Outcome :=
  if sec ≤ 0 then
    ⟨false, self, ["[提示] 时长需为正整数，已忽略本次修改\n"]⟩
  else
    ⟨true, { self with duration_sec_ := sec }, []⟩

/-- `Song::set_rating`. -/
def Song.set_rating (self : Song) (r : Int) : Outcome :=
  if r < 1 ∨ r > 5 then
    ⟨false, self, ["[提示] 评分需在 1..5，已忽略本次修改\n"]⟩
  else
    ⟨true, { self with rating_ := r }, []⟩

/-- The range-for of `add_tag`: true when the early `return false` is reached,
that is when some existing tag lower-cases to `lowerTag`. -/
def add_tag_scan (lowerTag : Str) : List Str → Bool
  | [] => false
  | existingTag :: rest =>
    if to_lower_copy existingTag = lowerTag then true else add_tag_scan lowerTag rest

/-- `Song::add_tag`. -/
def Song.add_tag (self : Song) (tag : Str) : Outcome :=
  let cleanTag := trim_copy tag
  if cleanTag.isEmpty then
    ⟨false, self, ["[提示] 空标签已忽略\n"]⟩
  else
    let lowerTag := to_lower_copy cleanTag
    if add_tag_scan lowerTag self.tags_ then
      ⟨false, self, ["[提示] 标签已存在（忽略大小写）\n"]⟩
    else
      ⟨true, { self with tags_ := self.tags_ ++ [cleanTag] }, []⟩

/-- The index loop of `remove_tag`: the index `i` at which the test
`to_lower_copy(tags_[i]) == lowerTag` first succeeds, `none` when the loop runs
to the end. -/
def remove_tag_scan (lowerTag : Str) : List Str → Option Nat
  | [] => none
  | t :: rest =>
    if to_lower_copy t = lowerTag then some 0
    else (remove_tag_scan lowerTag rest).map (· + 1)

/-- `Song::remove_tag`; `tags_.erase(tags_.begin() + i)` is `eraseIdx i`. -/
def Song.remove_tag (self : Song) (tag : Str) : Outcome :=
  let lowerTag := to_lower_copy (trim_copy tag)
  match remove_tag_scan lowerTag self.tags_ with
  | some i => ⟨true, { self with tags_ := self.tags_.eraseIdx i }, []⟩
  | none => ⟨false, self, ["[提示] 未找到该标签\n"]⟩

/-- The range-for of `matches_keyword` over the tags. -/
def matches_keyword_scan (lowerKw : Str) : List Str → Bool
  | [] => false
  | tag :: rest =>
    if (find lowerKw (to_lower_copy tag)).isSome then true
    else matches_keyword_scan lowerKw rest

/-- `Song::matches_keyword` (a `const` member: only the result is returned). -/
def Song.matches_keyword (self : Song) (kw : Str) : Bool :=
  let cleanKw := trim_copy kw
  if cleanKw.isEmpty then false
  else
    let lowerKw := to_lower_copy cleanKw
    let lowerTitle := to_lower_copy self.title_
    let lowerArtist := to_lower_copy self.artist_
    if (find lowerKw lowerTitle).isSome then true
    else if (find lowerKw lowerArtist).isSome then true
    else matches_keyword_scan lowerKw self.tags_

/-- `operator<<(std::ostream&, const Song&)`: the text appended to the stream.
`std::string(s.rating_, '*')` converts the count to `size_t`, so a negative
rating asks for more than `max_size()` characters and throws: `none`. -/
def Song.render (s : Song) : Option Str :=
  if s.rating_ < 0 then none
  else
    some ("[#".toList ++ decimal s.id_ ++ "] ".toList ++ s.artist_ ++ " - ".toList
      ++ s.title_ ++ " (".toList ++ decimal s.duration_sec_ ++ "s) ".toList
      ++ List.replicate s.rating_.toNat '*'
      ++ (if !s.tags_.isEmpty then "  [tags: ".toList ++ join_tags s.tags_ ++ "]".toList
          else []))

/-- `operator<(const Song&, const Song&)`; `x < y` on strings is
`x.compare(y) < 0` and `x > y` is `x.compare(y) > 0`. -/
def Song.lt (a b : Song) : Bool :=
  if a.rating_ > b.rating_ then true
  else if a.rating_ < b.rating_ then false
  else if string_compare a.title_ b.title_ = Ordering.lt then true
  else if string_compare a.title_ b.title_ = Ordering.gt then false
  else decide (a.id_ < b.id_)

/-! ## Sequences of constructor calls -/

/-- One call of a mutating member function, with its argument. -/
inductive Mutation where
  | set_title (t : Str)
  | set_artist (a : Str)
  | set_duration (sec : Int)
  | set_rating (r : Int)
  | add_tag (tag : Str)
  | remove_tag (tag : Str)
deriving DecidableEq

/-- The member function a `Mutation` names, called on `self`. -/
def Song.mutate (self : Song) : Mutation → Outcome
  | Mutation.set_title t => self.set_title t
  | Mutation.set_artist a => self.set_artist a
  | Mutation.set_duration sec => self.set_duration sec
  | Mutation.set_rating r => self.set_rating r
  | Mutation.add_tag tag => self.add_tag tag
  | Mutation.remove_tag tag => self.remove_tag tag

/-- The object after the calls `ms` made on it one after another. -/
def Song.run (self : Song) : List Mutation → Song
  | [] => self
  | m :: rest => Song.run (self.mutate m).song rest

/-! ## The properties the specification names -/

/-- Tags pairwise distinct under case-insensitive comparison. -/
def tags_distinct (tags : List Str) : Prop :=
  tags.Pairwise (fun a b => to_lower_copy a ≠ to_lower_copy b)

/-- Every tag non-empty and equal to its own `trim_copy`. -/
def tags_trimmed (tags : List Str) : Prop :=
  ∀ t ∈ tags, t ≠ [] ∧ trim_copy t = t

/-- The data invariant of a valid entry, in the words of the specification. -/
def Song.invariant (s : Song) : Prop :=
  s.title_ ≠ [] ∧ trim_copy s.title_ = s.title_
    ∧ s.artist_ ≠ [] ∧ trim_copy s.artist_ = s.artist_
    ∧ s.duration_sec_ > 0 ∧ 1 ≤ s.rating_ ∧ s.rating_ ≤ 5
    ∧ tags_trimmed s.tags_ ∧ tags_distinct s.tags_

/-- A line-break character: line feed or carriage return. -/
def line_break (ch : Char) : Bool :=
  ch.toNat = 10 || ch.toNat = 13


/-! ## Facts about the helpers -/

theorem find_if_not_le (p : Char → Bool) (s : Str) : find_if_not p s ≤ s.length := by
  induction s with
  | nil => simp [find_if_not]
  | cons ch rest ih =>
    by_cases h : p ch = true
    · simp [find_if_not, h, ih]
    · simp [find_if_not, h]

theorem find_if_not_before (p : Char → Bool) (s : Str) (j : Nat)
    (hj : j < find_if_not p s) : ∃ ch, s[j]? = some ch ∧ p ch = true := by
  induction s generalizing j with
  | nil => simp [find_if_not] at hj
  | cons c rest ih =>
    by_cases h : p c = true
    · cases j with
      | zero => exact ⟨c, by simp, h⟩
      | succ k =>
        simp only [find_if_not, h, if_true] at hj
        obtain ⟨d, hd, hp⟩ := ih k (by omega)
        exact ⟨d, by simpa using hd, hp⟩
    · simp [find_if_not, h] at hj

theorem find_if_not_at (p : Char → Bool) (s : Str) (h : find_if_not p s < s.length) :
    ∃ ch, s[find_if_not p s]? = some ch ∧ p ch = false := by
  induction s with
  | nil => simp at h
  | cons c rest ih =>
    by_cases hc : p c = true
    · simp only [find_if_not, hc, if_true, List.length_cons] at h ⊢
      obtain ⟨d, hd, hp⟩ := ih (by omega)
      exact ⟨d, by simpa using hd, hp⟩
    · exact ⟨c, by simp [find_if_not, hc], by simpa using hc⟩

theorem find_if_not_eq_length_iff (p : Char → Bool) (s : Str) :
    find_if_not p s = s.length ↔ ∀ ch ∈ s, p ch = true := by
  induction s with
  | nil => simp [find_if_not]
  | cons c rest ih =>
    by_cases hc : p c = true
    · simp [find_if_not, hc, ih]
    · simp [find_if_not, hc]

/-- With a character outside `p` somewhere, the leading and the trailing run
of `p`-characters do not meet. -/
theorem find_if_not_add_reverse_lt (p : Char → Bool) (s : Str)
    (h : ∃ ch ∈ s, p ch = false) :
    find_if_not p s + find_if_not p s.reverse < s.length := by
  have hlt : find_if_not p s < s.length := by
    rcases Nat.lt_or_ge (find_if_not p s) s.length with h1 | h1
    · exact h1
    · have h2 := (find_if_not_eq_length_iff p s).1 (Nat.le_antisymm (find_if_not_le p s) h1)
      obtain ⟨ch, hm, hp⟩ := h
      rw [h2 ch hm] at hp
      cases hp
  obtain ⟨c, hc, hpc⟩ := find_if_not_at p s hlt
  by_contra hcon
  have hj : s.length - 1 - find_if_not p s < find_if_not p s.reverse := by omega
  obtain ⟨d, hd, hpd⟩ := find_if_not_before p s.reverse _ hj
  have hidx : s.length - 1 - (s.length - 1 - find_if_not p s) = find_if_not p s := by omega
  rw [List.getElem?_reverse (by omega), hidx, hc] at hd
  cases hd
  rw [hpc] at hpd
  cases hpd

/-- The text `trim_copy` returns is empty exactly when every character of the
argument is white space. -/
theorem trim_copy_eq_nil_iff (s : Str) :
    trim_copy s = [] ↔ ∀ ch ∈ s, isspace ch = true := by
  constructor
  · intro h
    by_contra hcon
    push_neg at hcon
    obtain ⟨ch, hm, hp⟩ := hcon
    have hp2 : isspace ch = false := by simpa using hp
    have hlt := find_if_not_add_reverse_lt isspace s ⟨ch, hm, hp2⟩
    unfold trim_copy at h
    simp only [ge_iff_le] at h
    rw [if_neg (by omega)] at h
    have hlen := congrArg List.length h
    simp only [List.length_take, List.length_drop, List.length_nil] at hlen
    omega
  · intro h
    have h1 := (find_if_not_eq_length_iff isspace s).2 h
    unfold trim_copy
    simp only [ge_iff_le]
    rw [if_pos (by omega)]

theorem isEmpty_eq_false_iff (s : Str) : s.isEmpty = false ↔ s ≠ [] := by
  cases s <;> simp

/-! ## Construction -/

/-- The constructor passes its four checks exactly on acceptable arguments. -/
theorem ctor_valid_of_unpopulated (id0 d0 r0 n : Int) (title artist : Str)
    (duration_sec rating : Int) :
    (Song.ctor (Song.unpopulated id0 d0 r0) n title artist duration_sec rating).song.valid_ = true
      ↔ trim_copy title ≠ [] ∧ trim_copy artist ≠ [] ∧ duration_sec > 0
          ∧ 1 ≤ rating ∧ rating ≤ 5 := by
  unfold Song.ctor
  simp only [List.isEmpty_iff]
  split_ifs with h1 h2 h3 h4
  · simp [Song.unpopulated, h1]
  · simp [Song.unpopulated, h2]
  · simp only [Song.unpopulated]
    constructor
    · intro h; cases h
    · intro h; omega
  · simp only [Song.unpopulated]
    constructor
    · intro h; cases h
    · intro h; omega
  · simp only [true_iff]
    refine ⟨h1, h2, ?_, ?_, ?_⟩ <;> omega

/-- On acceptable arguments the constructor fills every field and increments
the counter; otherwise it leaves the object and the counter alone. -/
theorem ctor_eq (self : Song) (n : Int) (title artist : Str) (duration_sec rating : Int) :
    (trim_copy title ≠ [] ∧ trim_copy artist ≠ [] ∧ duration_sec > 0 ∧ 1 ≤ rating ∧ rating ≤ 5
      ∧ (Song.ctor self n title artist duration_sec rating).song =
          { id_ := n, title_ := trim_copy title, artist_ := trim_copy artist,
            duration_sec_ := duration_sec, rating_ := rating, tags_ := self.tags_,
            valid_ := true }
      ∧ (Song.ctor self n title artist duration_sec rating).next_id_ = wrap_int (n + 1))
    ∨ (¬ (trim_copy title ≠ [] ∧ trim_copy artist ≠ [] ∧ duration_sec > 0
          ∧ 1 ≤ rating ∧ rating ≤ 5)
      ∧ (Song.ctor self n title artist duration_sec rating).song = self
      ∧ (Song.ctor self n title artist duration_sec rating).next_id_ = n) := by
  unfold Song.ctor
  simp only [List.isEmpty_iff]
  split_ifs with h1 h2 h3 h4
  · right; exact ⟨fun h => h.1 h1, rfl, rfl⟩
  · right; exact ⟨fun h => h.2.1 h2, rfl, rfl⟩
  · right; exact ⟨fun h => by omega, rfl, rfl⟩
  · right; exact ⟨fun h => by omega, rfl, rfl⟩
  · left; exact ⟨h1, h2, by omega, by omega, by omega, rfl, rfl⟩

/-- C1: the constructor marks the entry valid if and only if the trimmed title
and the trimmed artist are non-empty, the duration is positive and the rating
lies in 1..5.  In particular a title made of white space only (such as two
blanks) is rejected whatever the other arguments are, the ratings 0 and 6 are
rejected, and each of the ratings 1..5 is accepted exactly when the other three
arguments are acceptable. -/
theorem ctor_valid_iff (id0 d0 r0 n : Int) (title artist : Str) (duration_sec rating : Int) :
    ((Song.ctor (Song.unpopulated id0 d0 r0) n title artist duration_sec rating).song.valid_ = true
      ↔ trim_copy title ≠ [] ∧ trim_copy artist ≠ [] ∧ duration_sec > 0
          ∧ 1 ≤ rating ∧ rating ≤ 5)
    ∧ ((∀ ch ∈ title, isspace ch = true) →
        (Song.ctor (Song.unpopulated id0 d0 r0) n title artist duration_sec rating).song.valid_
          = false)
    ∧ (Song.ctor (Song.unpopulated id0 d0 r0) n "  ".toList artist duration_sec rating).song.valid_
        = false
    ∧ (Song.ctor (Song.unpopulated id0 d0 r0) n title artist duration_sec 0).song.valid_ = false
    ∧ (Song.ctor (Song.unpopulated id0 d0 r0) n title artist duration_sec 6).song.valid_ = false
    ∧ (∀ r ∈ ([1, 2, 3, 4, 5] : List Int),
        ((Song.ctor (Song.unpopulated id0 d0 r0) n title artist duration_sec r).song.valid_ = true
          ↔ trim_copy title ≠ [] ∧ trim_copy artist ≠ [] ∧ duration_sec > 0)) := by
  refine ⟨ctor_valid_of_unpopulated _ _ _ _ _ _ _ _, ?_, ?_, ?_, ?_, ?_⟩
  · intro h
    rw [Bool.eq_false_iff]
    intro hv
    have := (ctor_valid_of_unpopulated _ _ _ _ _ _ _ _).1 hv
    exact this.1 ((trim_copy_eq_nil_iff title).2 h)
  · rw [Bool.eq_false_iff]
    intro hv
    have := (ctor_valid_of_unpopulated _ _ _ _ _ _ _ _).1 hv
    exact this.1 (by decide)
  · rw [Bool.eq_false_iff]
    intro hv
    have := (ctor_valid_of_unpopulated _ _ _ _ _ _ _ _).1 hv
    omega
  · rw [Bool.eq_false_iff]
    intro hv
    have := (ctor_valid_of_unpopulated _ _ _ _ _ _ _ _).1 hv
    omega
  · intro r hr
    rw [ctor_valid_of_unpopulated]
    simp only [List.mem_cons, List.mem_singleton, List.not_mem_nil, or_false] at hr
    constructor
    · intro h; exact ⟨h.1, h.2.1, h.2.2.1⟩
    · intro h; refine ⟨h.1, h.2.1, h.2.2, ?_, ?_⟩ <;> omega

theorem add_tag_scan_iff (lowerTag : Str) (tags : List Str) :
    add_tag_scan lowerTag tags = true ↔ ∃ t ∈ tags, to_lower_copy t = lowerTag := by
  induction tags with
  | nil => simp [add_tag_scan]
  | cons x rest ih =>
    by_cases hx : to_lower_copy x = lowerTag
    · simp [add_tag_scan, hx]
    · simp [add_tag_scan, hx, ih]

theorem remove_tag_scan_none_iff (lowerTag : Str) (tags : List Str) :
    remove_tag_scan lowerTag tags = none ↔ ∀ t ∈ tags, to_lower_copy t ≠ lowerTag := by
  induction tags with
  | nil => simp [remove_tag_scan]
  | cons x rest ih =>
    by_cases hx : to_lower_copy x = lowerTag
    · simp [remove_tag_scan, hx]
    · simp [remove_tag_scan, hx, ih]

/-- The index the scan of `remove_tag` stops at holds a matching tag, and no
earlier index does. -/
theorem remove_tag_scan_some (lowerTag : Str) (tags : List Str) (i : Nat)
    (h : remove_tag_scan lowerTag tags = some i) :
    (∃ t, tags[i]? = some t ∧ to_lower_copy t = lowerTag)
      ∧ ∀ j < i, ∀ u, tags[j]? = some u → to_lower_copy u ≠ lowerTag := by
  induction tags generalizing i with
  | nil => simp [remove_tag_scan] at h
  | cons x rest ih =>
    by_cases hx : to_lower_copy x = lowerTag
    · simp only [remove_tag_scan, hx, if_true, Option.some.injEq] at h
      subst h
      exact ⟨⟨x, by simp, hx⟩, fun j hj => by omega⟩
    · simp only [remove_tag_scan, hx, if_false, Option.map_eq_some'] at h
      obtain ⟨k, hk, rfl⟩ := h
      obtain ⟨⟨t, ht, hm⟩, hbefore⟩ := ih k hk
      refine ⟨⟨t, by simpa using ht, hm⟩, ?_⟩
      intro j hj u hu
      cases j with
      | zero =>
        simp only [List.getElem?_cons_zero, Option.some.injEq] at hu
        subst hu
        exact hx
      | succ m =>
        simp only [List.getElem?_cons_succ] at hu
        exact hbefore m (by omega) u hu

theorem remove_tag_scan_lt (lowerTag : Str) (tags : List Str) (i : Nat)
    (h : remove_tag_scan lowerTag tags = some i) : i < tags.length := by
  obtain ⟨⟨t, ht, _⟩, _⟩ := remove_tag_scan_some lowerTag tags i h
  by_contra hcon
  rw [List.getElem?_eq_none (by omega)] at ht
  cases ht

/-! ## The claims about the mutators -/

/-- C4: each setter returns true exactly when its argument is acceptable
(a non-empty trimmed text for `set_title` and `set_artist`, a positive number
for `set_duration`, a number in 1..5 for `set_rating`); when it returns true
the entry afterwards is the entry before with the targeted field replaced by
the trimmed text or the given number, every other field as it was. -/
theorem setters_accept_iff (s : Song) (t a : Str) (sec r : Int) :
    (((s.set_title t).ret = true ↔ trim_copy t ≠ [])
      ∧ ((s.set_title t).ret = true → (s.set_title t).song = { s with title_ := trim_copy t }))
    ∧ (((s.set_artist a).ret = true ↔ trim_copy a ≠ [])
      ∧ ((s.set_artist a).ret = true →
          (s.set_artist a).song = { s with artist_ := trim_copy a }))
    ∧ (((s.set_duration sec).ret = true ↔ sec > 0)
      ∧ ((s.set_duration sec).ret = true →
          (s.set_duration sec).song = { s with duration_sec_ := sec }))
    ∧ (((s.set_rating r).ret = true ↔ 1 ≤ r ∧ r ≤ 5)
      ∧ ((s.set_rating r).ret = true → (s.set_rating r).song = { s with rating_ := r })) := by
  refine ⟨?_, ?_, ?_, ?_⟩
  · unfold Song.set_title
    simp only [List.isEmpty_iff]
    split_ifs with h
    · simp [h]
    · simp [h]
  · unfold Song.set_artist
    simp only [List.isEmpty_iff]
    split_ifs with h
    · simp [h]
    · simp [h]
  · unfold Song.set_duration
    split_ifs with h
    · simp only [Bool.false_eq_true, false_iff, false_implies, and_true]; omega
    · simp only [true_iff, forall_const, and_true]; omega
  · unfold Song.set_rating
    split_ifs with h
    · simp only [Bool.false_eq_true, false_iff, false_implies, and_true]; omega
    · simp only [true_iff, forall_const, and_true]; omega

theorem setters_accept_iff_witness :
    (Song.set_title ⟨1, "Old".toList, "A".toList, 10, 3, [], true⟩ "  New Title\t".toList).song
      = ⟨1, "New Title".toList, "A".toList, 10, 3, [], true⟩ :=
  ((setters_accept_iff ⟨1, "Old".toList, "A".toList, 10, 3, [], true⟩ "  New Title\t".toList
      [] 0 0).1.2 (by decide)).trans (by decide)

/-- C5: whenever one of the six mutators returns false, the entry after the
call is the entry before the call, field for field. -/
theorem mutators_reject_unchanged (s : Song) (t a : Str) (sec r : Int) (tag tag2 : Str) :
    ((s.set_title t).ret = false → (s.set_title t).song = s)
    ∧ ((s.set_artist a).ret = false → (s.set_artist a).song = s)
    ∧ ((s.set_duration sec).ret = false → (s.set_duration sec).song = s)
    ∧ ((s.set_rating r).ret = false → (s.set_rating r).song = s)
    ∧ ((s.add_tag tag).ret = false → (s.add_tag tag).song = s)
    ∧ ((s.remove_tag tag2).ret = false → (s.remove_tag tag2).song = s) := by
  refine ⟨?_, ?_, ?_, ?_, ?_, ?_⟩
  · simp only [Song.set_title]; split_ifs <;> simp
  · simp only [Song.set_artist]; split_ifs <;> simp
  · unfold Song.set_duration; split_ifs <;> simp
  · unfold Song.set_rating; split_ifs <;> simp
  · unfold Song.add_tag
    simp only
    split_ifs <;> simp
  · unfold Song.remove_tag
    simp only
    split <;> simp

theorem mutators_reject_unchanged_witness :
    (Song.add_tag ⟨1, "T".toList, "A".toList, 10, 3, ["Rock".toList], true⟩ " rOCK ".toList).song
      = ⟨1, "T".toList, "A".toList, 10, 3, ["Rock".toList], true⟩ :=
  (mutators_reject_unchanged ⟨1, "T".toList, "A".toList, 10, 3, ["Rock".toList], true⟩
      [] [] 0 0 " rOCK ".toList []).2.2.2.2.1 (by decide)

/-- C6: `add_tag` returns true if and only if the trimmed tag is non-empty and
no existing tag has the same lower-cased text; when it returns true the new tag
list is the old one with the trimmed tag, in its original letter case, appended
at the end, so the existing tags keep their positions. -/
theorem add_tag_iff (s : Song) (tag : Str) :
    ((s.add_tag tag).ret = true
      ↔ trim_copy tag ≠ []
          ∧ ∀ t ∈ s.tags_, to_lower_copy t ≠ to_lower_copy (trim_copy tag))
    ∧ ((s.add_tag tag).ret = true →
        (s.add_tag tag).song.tags_ = s.tags_ ++ [trim_copy tag]
        ∧ (∀ i, i < s.tags_.length → (s.add_tag tag).song.tags_[i]? = s.tags_[i]?)
        ∧ (s.add_tag tag).song.tags_[s.tags_.length]? = some (trim_copy tag)) := by
  simp only [Song.add_tag, List.isEmpty_iff]
  split_ifs with h1 h2
  · simp [h1]
  · have := (add_tag_scan_iff _ _).1 h2
    simp only [Bool.false_eq_true, false_iff, false_implies, and_true, not_and, not_forall]
    intro _
    obtain ⟨t, ht, hm⟩ := this
    exact ⟨t, ht, fun hne => hne hm⟩
  · have hno : ∀ t ∈ s.tags_, to_lower_copy t ≠ to_lower_copy (trim_copy tag) := by
      intro t ht hm
      exact h2 ((add_tag_scan_iff _ _).2 ⟨t, ht, hm⟩)
    refine ⟨⟨fun _ => ⟨h1, hno⟩, fun _ => rfl⟩, fun _ => ⟨rfl, ?_, ?_⟩⟩
    · intro i hi
      exact List.getElem?_append_left hi
    · simp

theorem add_tag_iff_witness :
    (Song.add_tag ⟨1, "T".toList, "A".toList, 10, 3, ["Rock".toList], true⟩ " Jazz ".toList).song.tags_
      = ["Rock".toList, "Jazz".toList] :=
  ((add_tag_iff ⟨1, "T".toList, "A".toList, 10, 3, ["Rock".toList], true⟩ " Jazz ".toList).2
      (by decide)).1.trans (by decide)

/-- C7: `remove_tag` returns true if and only if some existing tag lower-cases
to the lower-cased trimmed argument; when it returns true exactly one element
goes, the one at the smallest index with that property, and the rest keep their
order: the new list is what stood before that index followed by what stood
after it. -/
theorem remove_tag_iff (s : Song) (tag : Str) :
    ((s.remove_tag tag).ret = true
      ↔ ∃ t ∈ s.tags_, to_lower_copy t = to_lower_copy (trim_copy tag))
    ∧ ((s.remove_tag tag).ret = true →
        ∃ i, i < s.tags_.length
          ∧ (∃ t, s.tags_[i]? = some t ∧ to_lower_copy t = to_lower_copy (trim_copy tag))
          ∧ (∀ j < i, ∀ u, s.tags_[j]? = some u →
              to_lower_copy u ≠ to_lower_copy (trim_copy tag))
          ∧ (s.remove_tag tag).song.tags_ = s.tags_.take i ++ s.tags_.drop (i + 1)
          ∧ (s.remove_tag tag).song.tags_.length + 1 = s.tags_.length) := by
  simp only [Song.remove_tag]
  cases hscan : remove_tag_scan (to_lower_copy (trim_copy tag)) s.tags_ with
  | none =>
    have hno := (remove_tag_scan_none_iff _ _).1 hscan
    simp only [Bool.false_eq_true, false_iff, false_implies, and_true, not_exists, not_and]
    exact hno
  | some i =>
    obtain ⟨⟨t, ht, hm⟩, hbefore⟩ := remove_tag_scan_some _ _ i hscan
    have hlt := remove_tag_scan_lt _ _ i hscan
    refine ⟨⟨fun _ => ⟨t, List.getElem?_mem ht, hm⟩, fun _ => rfl⟩, fun _ => ?_⟩
    refine ⟨i, hlt, ⟨t, ht, hm⟩, hbefore, ?_, ?_⟩
    · exact List.eraseIdx_eq_take_drop_succ _ _
    · simp only [List.length_eraseIdx, hlt, if_true]
      omega

theorem remove_tag_iff_witness :
    ∃ i, i < 4
      ∧ (∃ t, ["a".toList, "Rock".toList, "b".toList, "ROCK".toList][i]? = some t
          ∧ to_lower_copy t = to_lower_copy (trim_copy " rock".toList))
      ∧ (∀ j < i, ∀ u, ["a".toList, "Rock".toList, "b".toList, "ROCK".toList][j]? = some u →
          to_lower_copy u ≠ to_lower_copy (trim_copy " rock".toList))
      ∧ (Song.remove_tag
            ⟨1, "T".toList, "A".toList, 10, 3,
              ["a".toList, "Rock".toList, "b".toList, "ROCK".toList], true⟩
            " rock".toList).song.tags_
          = ["a".toList, "Rock".toList, "b".toList, "ROCK".toList].take i
              ++ ["a".toList, "Rock".toList, "b".toList, "ROCK".toList].drop (i + 1)
      ∧ (Song.remove_tag
            ⟨1, "T".toList, "A".toList, 10, 3,
              ["a".toList, "Rock".toList, "b".toList, "ROCK".toList], true⟩
            " rock".toList).song.tags_.length + 1 = 4 :=
  (remove_tag_iff
      ⟨1, "T".toList, "A".toList, 10, 3,
        ["a".toList, "Rock".toList, "b".toList, "ROCK".toList], true⟩
      " rock".toList).2 (by decide)

/-! ## Keyword search -/

/-- `find` reports a position exactly when the needle occurs as a contiguous
piece of the text. -/
theorem find_isSome_iff (needle hay : Str) :
    (find needle hay).isSome = true ↔ needle <:+: hay := by
  induction hay with
  | nil =>
    cases needle with
    | nil => simp [find]
    | cons c cs => simp [find, List.isPrefixOf]
  | cons ch rest ih =>
    by_cases hp : needle.isPrefixOf (ch :: rest) = true
    · simp only [find, hp, if_true, Option.isSome_some, true_iff]
      exact (List.isPrefixOf_iff_prefix.1 hp).isInfix
    · have hf : find needle (ch :: rest) = (find needle rest).map (· + 1) := by
        simp only [find]
        rw [if_neg hp]
      have hs : (find needle (ch :: rest)).isSome = (find needle rest).isSome := by
        rw [hf]
        cases find needle rest <;> rfl
      rw [hs, ih]
      constructor
      · intro h
        obtain ⟨pre, post, h⟩ := h
        exact ⟨ch :: pre, post, by simp [← h]⟩
      · intro h
        obtain ⟨pre, post, h⟩ := h
        cases pre with
        | nil =>
          exfalso
          apply hp
          rw [List.isPrefixOf_iff_prefix]
          exact ⟨post, by simpa using h⟩
        | cons c pre2 =>
          simp only [List.cons_append, List.cons.injEq] at h
          exact ⟨pre2, post, h.2⟩

theorem matches_keyword_scan_iff (lowerKw : Str) (tags : List Str) :
    matches_keyword_scan lowerKw tags = true
      ↔ ∃ t ∈ tags, lowerKw <:+: to_lower_copy t := by
  induction tags with
  | nil => simp [matches_keyword_scan]
  | cons x rest ih =>
    by_cases hx : (find lowerKw (to_lower_copy x)).isSome = true
    · simp only [matches_keyword_scan, hx, if_true, List.mem_cons, exists_eq_or_imp, true_iff]
      exact Or.inl ((find_isSome_iff _ _).1 hx)
    · have hx2 : ¬ lowerKw <:+: to_lower_copy x := fun h => hx ((find_isSome_iff _ _).2 h)
      simp [matches_keyword_scan, hx, ih, hx2]

theorem matches_keyword_eq (s : Song) (kw : Str) :
    s.matches_keyword kw = true
      ↔ trim_copy kw ≠ []
          ∧ (to_lower_copy (trim_copy kw) <:+: to_lower_copy s.title_
              ∨ to_lower_copy (trim_copy kw) <:+: to_lower_copy s.artist_
              ∨ ∃ t ∈ s.tags_, to_lower_copy (trim_copy kw) <:+: to_lower_copy t) := by
  simp only [Song.matches_keyword, List.isEmpty_iff]
  split_ifs with h1 h2 h3
  · simp [h1]
  · simp only [true_iff]
    exact ⟨h1, Or.inl ((find_isSome_iff _ _).1 h2)⟩
  · simp only [true_iff]
    exact ⟨h1, Or.inr (Or.inl ((find_isSome_iff _ _).1 h3))⟩
  · have h2n : ¬ to_lower_copy (trim_copy kw) <:+: to_lower_copy s.title_ :=
      fun h => h2 ((find_isSome_iff _ _).2 h)
    have h3n : ¬ to_lower_copy (trim_copy kw) <:+: to_lower_copy s.artist_ :=
      fun h => h3 ((find_isSome_iff _ _).2 h)
    rw [matches_keyword_scan_iff]
    simp [h1, h2n, h3n]

/-- C8: `matches_keyword` returns true if and only if the trimmed keyword is
non-empty and its lower-cased text occurs as a contiguous piece of the
lower-cased title, of the lower-cased artist, or of some lower-cased tag.  In
particular the empty keyword and every keyword made of white space only match
no entry, and the keyword "oh" matches every entry whose artist is
"John Doe". -/
theorem matches_keyword_iff (s : Song) (kw : Str) :
    (s.matches_keyword kw = true
      ↔ trim_copy kw ≠ []
          ∧ (to_lower_copy (trim_copy kw) <:+: to_lower_copy s.title_
              ∨ to_lower_copy (trim_copy kw) <:+: to_lower_copy s.artist_
              ∨ ∃ t ∈ s.tags_, to_lower_copy (trim_copy kw) <:+: to_lower_copy t))
    ∧ s.matches_keyword "".toList = false
    ∧ ((∀ ch ∈ kw, isspace ch = true) → s.matches_keyword kw = false)
    ∧ Song.matches_keyword { s with artist_ := "John Doe".toList } "oh".toList = true := by
  refine ⟨matches_keyword_eq s kw, by simp [Song.matches_keyword, trim_copy, find_if_not], ?_, ?_⟩
  · intro h
    rw [Bool.eq_false_iff]
    intro hm
    exact ((matches_keyword_eq s kw).1 hm).1 ((trim_copy_eq_nil_iff kw).2 h)
  · rw [matches_keyword_eq]
    refine ⟨by decide, Or.inr (Or.inl ?_)⟩
    show to_lower_copy (trim_copy "oh".toList) <:+: to_lower_copy "John Doe".toList
    exact ⟨"j".toList, "n doe".toList, by decide⟩

/-! ## Rendering -/

theorem join_tags_loop_succ (i : Nat) (tags : List Str) :
    join_tags_loop (i + 1) tags = (tags.map (fun t => ", ".toList ++ t)).flatten := by
  induction tags generalizing i with
  | nil => rfl
  | cons t rest ih =>
    simp only [join_tags_loop, Nat.succ_pos, gt_iff_lt, if_true, List.map_cons, List.flatten_cons,
      ih (i + 1), List.append_assoc]

theorem intercalate_cons (sep t : Str) (rest : List Str) :
    sep.intercalate (t :: rest) = t ++ (rest.map (fun u => sep ++ u)).flatten := by
  induction rest generalizing t with
  | nil => simp [List.intercalate, List.intersperse]
  | cons u rest2 ih =>
    have := ih u
    simp only [List.intercalate] at this ⊢
    simp only [List.intersperse, List.flatten_cons, List.map_cons, this, List.append_assoc]

/-- The loop of `join_tags` puts `", "` between consecutive tags and nowhere
else. -/
theorem join_tags_eq_intercalate (tags : List Str) :
    join_tags tags = ", ".toList.intercalate tags := by
  cases tags with
  | nil => rfl
  | cons t rest =>
    rw [intercalate_cons]
    simp only [join_tags, List.isEmpty_cons, Bool.false_eq_true, if_false, join_tags_loop,
      gt_iff_lt, Nat.lt_irrefl, List.nil_append, Nat.zero_add]
    rw [join_tags_loop_succ 0 rest]

/-- C9: for an entry whose rating lies in 1..5, `operator<<` writes
"[#" id "] " artist " - " title " (" duration "s) " followed by `rating`
asterisks, and then, exactly when the tag list is non-empty, "  [tags: " the
tags joined by ", " in their order "]"; with no tags nothing follows the
asterisks. -/
theorem render_format (s : Song) (h1 : 1 ≤ s.rating_) (h5 : s.rating_ ≤ 5) :
    s.render = some ("[#".toList ++ decimal s.id_ ++ "] ".toList ++ s.artist_ ++ " - ".toList
      ++ s.title_ ++ " (".toList ++ decimal s.duration_sec_ ++ "s) ".toList
      ++ List.replicate s.rating_.toNat '*'
      ++ (if s.tags_ = [] then []
          else "  [tags: ".toList ++ ", ".toList.intercalate s.tags_ ++ "]".toList)) := by
  unfold Song.render
  rw [if_neg (by omega), join_tags_eq_intercalate]
  cases s.tags_ <;> simp

theorem render_format_witness :
    Song.render ⟨3, "B".toList, "A".toList, 61, 2, ["x".toList, "y".toList], true⟩
      = some "[#3] A - B (61s) **  [tags: x, y]".toList :=
  (render_format ⟨3, "B".toList, "A".toList, 61, 2, ["x".toList, "y".toList], true⟩
    (by decide) (by decide)).trans (by decide)

/-! ## Ordering -/

theorem char_lt_iff (a b : Char) : a < b ↔ a.toNat < b.toNat := Iff.rfl

theorem char_eq_of_toNat_eq (a b : Char) (h : a.toNat = b.toNat) : a = b := by
  rw [← Char.ofNat_toNat a, ← Char.ofNat_toNat b, h]

/-- `string_compare` answers "less" exactly on the lexicographic order of the
two character sequences. -/
theorem string_compare_lt_iff (a b : Str) :
    string_compare a b = Ordering.lt ↔ List.Lex (fun x y : Char => x < y) a b := by
  induction a generalizing b with
  | nil =>
    cases b with
    | nil =>
      simp only [string_compare]
      constructor
      · intro h
        cases h
      · intro h
        cases h
    | cons y ys =>
      simp only [string_compare, true_iff]
      exact List.Lex.nil
  | cons x xs ih =>
    cases b with
    | nil =>
      simp only [string_compare]
      constructor
      · intro h
        cases h
      · intro h
        cases h
    | cons y ys =>
      simp only [string_compare]
      split_ifs with h1 h2
      · simp only [true_iff]
        exact List.Lex.rel ((char_lt_iff x y).2 h1)
      · simp only [false_iff]
        intro h
        cases h with
        | cons _ => omega
        | rel hxy => exact h1 ((char_lt_iff x y).1 hxy)
      · rw [ih ys]
        have hxy : x = y := char_eq_of_toNat_eq x y (by omega)
        subst hxy
        constructor
        · intro h
          exact List.Lex.cons h
        · intro h
          cases h with
          | cons hrest => exact hrest
          | rel hxx => exact absurd ((char_lt_iff x x).1 hxx) h1

/-- `string_compare` answers "greater" exactly when the swapped comparison
answers "less". -/
theorem string_compare_gt_iff (a b : Str) :
    string_compare a b = Ordering.gt ↔ string_compare b a = Ordering.lt := by
  induction a generalizing b with
  | nil => cases b <;> simp [string_compare]
  | cons x xs ih =>
    cases b with
    | nil => simp [string_compare]
    | cons y ys =>
      simp only [string_compare]
      split_ifs <;> first | omega | simp | exact ih ys

/-- `string_compare` answers "equal" exactly on equal strings. -/
theorem string_compare_eq_iff (a b : Str) :
    string_compare a b = Ordering.eq ↔ a = b := by
  induction a generalizing b with
  | nil => cases b <;> simp [string_compare]
  | cons x xs ih =>
    cases b with
    | nil => simp [string_compare]
    | cons y ys =>
      simp only [string_compare]
      split_ifs with h1 h2
      · simp only [false_iff, List.cons.injEq, not_and]
        intro hxy
        rw [hxy] at h1
        omega
      · simp only [false_iff, List.cons.injEq, not_and]
        intro hxy
        rw [hxy] at h2
        omega
      · rw [ih ys]
        have hxy : x = y := char_eq_of_toNat_eq x y (by omega)
        simp [hxy]

/-- The comparison in the words of the ordering rule: rating descending, then
title ascending, then id ascending. -/
theorem lt_eq (a b : Song) :
    a.lt b = true
      ↔ a.rating_ > b.rating_
          ∨ (a.rating_ = b.rating_ ∧ List.Lex (fun x y : Char => x < y) a.title_ b.title_)
          ∨ (a.rating_ = b.rating_ ∧ a.title_ = b.title_ ∧ a.id_ < b.id_) := by
  unfold Song.lt
  split_ifs with h1 h2 h3 h4
  · simp [h1]
  · simp only [Bool.false_eq_true, false_iff, not_or, not_and]
    refine ⟨h1, ?_, ?_⟩ <;> intro h <;> omega
  · have := (string_compare_lt_iff _ _).1 h3
    simp only [true_iff]
    exact Or.inr (Or.inl ⟨by omega, this⟩)
  · have hlt : ¬ List.Lex (fun x y : Char => x < y) a.title_ b.title_ := fun h => h3 ((string_compare_lt_iff _ _).2 h)
    have hne : a.title_ ≠ b.title_ := by
      intro h
      have := (string_compare_eq_iff _ _).2 h
      rw [this] at h4
      cases h4
    simp only [Bool.false_eq_true, false_iff, not_or, not_and]
    exact ⟨h1, fun _ => hlt, fun _ h => absurd h hne⟩
  · have hlt : ¬ List.Lex (fun x y : Char => x < y) a.title_ b.title_ := fun h => h3 ((string_compare_lt_iff _ _).2 h)
    have heq : a.title_ = b.title_ := by
      rw [← string_compare_eq_iff]
      cases hc : string_compare a.title_ b.title_ with
      | lt => exact absurd hc h3
      | eq => rfl
      | gt => exact absurd hc h4
    have hr : a.rating_ = b.rating_ := by omega
    simp only [decide_eq_true_eq]
    constructor
    · intro h
      exact Or.inr (Or.inr ⟨hr, heq, h⟩)
    · intro h
      rcases h with h | h | h
      · exact absurd h h1
      · exact absurd h.2 hlt
      · exact h.2.2

/-- C10: `operator<` is true if and only if the left rating is the higher one,
or the ratings are equal and the left title is lexicographically smaller, or
ratings and titles are equal and the left id is the smaller one.  In
particular with rating 5 on both sides "Apple" is ordered before "Zebra", and
with equal rating and equal title the lower id is ordered first. -/
theorem lt_iff (a b : Song) (r : Int) (t : Str) :
    (a.lt b = true
      ↔ a.rating_ > b.rating_
          ∨ (a.rating_ = b.rating_ ∧ List.Lex (fun x y : Char => x < y) a.title_ b.title_)
          ∨ (a.rating_ = b.rating_ ∧ a.title_ = b.title_ ∧ a.id_ < b.id_))
    ∧ Song.lt { a with rating_ := 5, title_ := "Apple".toList }
        { b with rating_ := 5, title_ := "Zebra".toList } = true
    ∧ Song.lt { b with rating_ := 5, title_ := "Zebra".toList }
        { a with rating_ := 5, title_ := "Apple".toList } = false
    ∧ (Song.lt { a with rating_ := r, title_ := t } { b with rating_ := r, title_ := t } = true
        ↔ a.id_ < b.id_) := by
  refine ⟨lt_eq a b, ?_, ?_, ?_⟩
  · rw [lt_eq]
    exact Or.inr (Or.inl ⟨rfl, List.Lex.rel (by decide)⟩)
  · rfl
  · rw [lt_eq]
    have hirr : ¬ List.Lex (fun x y : Char => x < y) t t := by
      intro h
      have h1 := (string_compare_lt_iff t t).2 h
      rw [(string_compare_eq_iff t t).2 rfl] at h1
      cases h1
    simp [hirr]

/-! ## The ordering as a relation -/

theorem lex_trans (a b c : Str) (h1 : List.Lex (fun x y : Char => x < y) a b)
    (h2 : List.Lex (fun x y : Char => x < y) b c) :
    List.Lex (fun x y : Char => x < y) a c :=
  Trans.trans h1 h2


theorem lex_irrefl (t : Str) : ¬ List.Lex (fun x y : Char => x < y) t t := by
  intro h
  have h1 := (string_compare_lt_iff t t).2 h
  rw [(string_compare_eq_iff t t).2 rfl] at h1
  cases h1

theorem lex_trichotomy (a b : Str) :
    List.Lex (fun x y : Char => x < y) a b ∨ a = b
      ∨ List.Lex (fun x y : Char => x < y) b a := by
  cases hc : string_compare a b with
  | lt => exact Or.inl ((string_compare_lt_iff a b).1 hc)
  | eq => exact Or.inr (Or.inl ((string_compare_eq_iff a b).1 hc))
  | gt =>
    exact Or.inr (Or.inr ((string_compare_lt_iff b a).1 ((string_compare_gt_iff a b).1 hc)))

theorem song_lt_irrefl (a : Song) : a.lt a = false := by
  rw [Bool.eq_false_iff, Ne, lt_eq]
  intro h
  rcases h with h | h | h
  · omega
  · exact lex_irrefl _ h.2
  · omega

theorem song_lt_trans (a b c : Song) (hab : a.lt b = true) (hbc : b.lt c = true) :
    a.lt c = true := by
  rw [lt_eq] at hab hbc ⊢
  rcases hab with h1 | ⟨h1, h1t⟩ | ⟨h1, h1t, h1i⟩ <;>
    rcases hbc with h2 | ⟨h2, h2t⟩ | ⟨h2, h2t, h2i⟩
  · left; omega
  · left; omega
  · left; omega
  · left; omega
  · right; left; exact ⟨by omega, lex_trans _ _ _ h1t h2t⟩
  · right; left; exact ⟨by omega, h2t ▸ h1t⟩
  · left; omega
  · right; left; exact ⟨by omega, h1t ▸ h2t⟩
  · right; right; exact ⟨by omega, h1t.trans h2t, by omega⟩

/-- Two entries are tied exactly when rating, title and id all agree. -/
theorem tie_iff (a b : Song) :
    (a.lt b = false ∧ b.lt a = false)
      ↔ a.rating_ = b.rating_ ∧ a.title_ = b.title_ ∧ a.id_ = b.id_ := by
  rw [Bool.eq_false_iff, Bool.eq_false_iff, Ne, Ne, lt_eq, lt_eq]
  constructor
  · intro h
    obtain ⟨h1, h2⟩ := h
    have hr : a.rating_ = b.rating_ := by
      by_contra hne
      rcases lt_trichotomy a.rating_ b.rating_ with hlt | heq | hgt
      · exact h2 (Or.inl hlt)
      · exact hne heq
      · exact h1 (Or.inl hgt)
    have ht : a.title_ = b.title_ := by
      rcases lex_trichotomy a.title_ b.title_ with hlt | heq | hgt
      · exact absurd (Or.inr (Or.inl ⟨hr, hlt⟩)) h1
      · exact heq
      · exact absurd (Or.inr (Or.inl ⟨hr.symm, hgt⟩)) h2
    refine ⟨hr, ht, ?_⟩
    rcases lt_trichotomy a.id_ b.id_ with hlt | heq | hgt
    · exact absurd (Or.inr (Or.inr ⟨hr, ht, hlt⟩)) h1
    · exact heq
    · exact absurd (Or.inr (Or.inr ⟨hr.symm, ht.symm, hgt⟩)) h2
  · intro h
    obtain ⟨hr, ht, hi⟩ := h
    constructor
    · intro h
      rcases h with h | h | h
      · omega
      · rw [ht] at h; exact lex_irrefl _ h.2
      · omega
    · intro h
      rcases h with h | h | h
      · omega
      · rw [ht] at h; exact lex_irrefl _ h.2
      · omega

/-- The two directions of the comparison never hold together. -/
theorem song_lt_asymm (a b : Song) (hab : a.lt b = true) : b.lt a = false := by
  rw [Bool.eq_false_iff]
  intro hba
  have := song_lt_trans a b a hab hba
  rw [song_lt_irrefl] at this
  cases this

/-- C11: `operator<` is a strict weak ordering: no entry is before itself, the
relation is transitive, and being tied (neither before the other) is
transitive. -/
theorem lt_strict_weak (a b c : Song) :
    a.lt a = false
    ∧ (a.lt b = true → b.lt c = true → a.lt c = true)
    ∧ ((a.lt b = false ∧ b.lt a = false) → (b.lt c = false ∧ c.lt b = false) →
        (a.lt c = false ∧ c.lt a = false)) := by
  refine ⟨song_lt_irrefl a, song_lt_trans a b c, ?_⟩
  intro h1 h2
  rw [tie_iff] at h1 h2 ⊢
  exact ⟨h1.1.trans h2.1, h1.2.1.trans h2.2.1, h1.2.2.trans h2.2.2⟩

theorem lt_strict_weak_witness :
    Song.lt ⟨1, "Zed".toList, "A".toList, 10, 5, [], true⟩
        ⟨3, "Ace".toList, "C".toList, 30, 3, [], true⟩ = true :=
  (lt_strict_weak ⟨1, "Zed".toList, "A".toList, 10, 5, [], true⟩
      ⟨2, "Ace".toList, "B".toList, 20, 4, [], true⟩
      ⟨3, "Ace".toList, "C".toList, 30, 3, [], true⟩).2.1 (by decide) (by decide)

/-- C12: two entries with different ids are never tied: exactly one of
`a < b` and `b < a` holds.  Hence on any collection of entries with pairwise
distinct ids two distinct entries are always ordered one way and not the
other. -/
theorem lt_total_of_id_ne (a b : Song) :
    (a.id_ ≠ b.id_ →
      (a.lt b = true ∧ b.lt a = false) ∨ (a.lt b = false ∧ b.lt a = true))
    ∧ (∀ l : List Song, (l.map (fun s => s.id_)).Nodup → a ∈ l → b ∈ l → a ≠ b →
        (a.lt b = true ∧ b.lt a = false) ∨ (a.lt b = false ∧ b.lt a = true)) := by
  have key : a.id_ ≠ b.id_ →
      (a.lt b = true ∧ b.lt a = false) ∨ (a.lt b = false ∧ b.lt a = true) := by
    intro hne
    cases hab : a.lt b with
    | true => exact Or.inl ⟨rfl, song_lt_asymm a b hab⟩
    | false =>
      refine Or.inr ⟨rfl, ?_⟩
      cases hba : b.lt a with
      | true => rfl
      | false => exact absurd ((tie_iff a b).1 ⟨hab, hba⟩).2.2 hne
  refine ⟨key, ?_⟩
  intro l hl ha hb hab
  apply key
  intro hid
  exact hab (List.inj_on_of_nodup_map hl ha hb hid)

theorem lt_total_of_id_ne_witness :
    (Song.lt ⟨2, "Same".toList, "A".toList, 10, 4, [], true⟩
        ⟨1, "Same".toList, "A".toList, 10, 4, [], true⟩ = true
      ∧ Song.lt ⟨1, "Same".toList, "A".toList, 10, 4, [], true⟩
          ⟨2, "Same".toList, "A".toList, 10, 4, [], true⟩ = false)
    ∨ (Song.lt ⟨2, "Same".toList, "A".toList, 10, 4, [], true⟩
        ⟨1, "Same".toList, "A".toList, 10, 4, [], true⟩ = false
      ∧ Song.lt ⟨1, "Same".toList, "A".toList, 10, 4, [], true⟩
          ⟨2, "Same".toList, "A".toList, 10, 4, [], true⟩ = true) :=
  (lt_total_of_id_ne ⟨2, "Same".toList, "A".toList, 10, 4, [], true⟩
      ⟨1, "Same".toList, "A".toList, 10, 4, [], true⟩).1 (by decide)

/-! ## What `trim_copy` returns -/

theorem find_if_not_zero_of_head (p : Char → Bool) (s : Str) (x : Char)
    (hx : s[0]? = some x) (hp : p x = false) : find_if_not p s = 0 := by
  cases s with
  | nil => rfl
  | cons c rest =>
    simp only [List.getElem?_cons_zero, Option.some.injEq] at hx
    subst hx
    simp [find_if_not, hp]

/-- A text that starts and ends with a character that is not white space is
its own `trim_copy`. -/
theorem trim_copy_fixed (r : Str) (x y : Char) (hx : r[0]? = some x)
    (hpx : isspace x = false) (hy : r.reverse[0]? = some y) (hpy : isspace y = false) :
    trim_copy r = r := by
  have h1 := find_if_not_zero_of_head isspace r x hx hpx
  have h2 := find_if_not_zero_of_head isspace r.reverse y hy hpy
  have hlen : 0 < r.length := by
    cases r with
    | nil => simp at hx
    | cons c rest => simp
  unfold trim_copy
  simp only [h1, h2, ge_iff_le, Nat.sub_zero, List.drop_zero, List.take_length]
  rw [if_neg (by omega)]

/-- A non-empty `trim_copy` starts and ends with a character that is not white
space. -/
theorem trim_copy_ends (s : Str) (h : trim_copy s ≠ []) :
    (∃ x, (trim_copy s)[0]? = some x ∧ isspace x = false)
      ∧ ∃ y, (trim_copy s).reverse[0]? = some y ∧ isspace y = false := by
  have hex : ∃ ch ∈ s, isspace ch = false := by
    by_contra hcon
    push_neg at hcon
    apply h
    rw [trim_copy_eq_nil_iff]
    intro ch hm
    simpa using hcon ch hm
  have hlt := find_if_not_add_reverse_lt isspace s hex
  have hf : find_if_not isspace s < s.length := by omega
  have hg : find_if_not isspace s.reverse < s.reverse.length := by
    rw [List.length_reverse]; omega
  obtain ⟨x, hx, hpx⟩ := find_if_not_at isspace s hf
  obtain ⟨y, hy, hpy⟩ := find_if_not_at isspace s.reverse hg
  have heq : trim_copy s = (s.drop (find_if_not isspace s)).take
      (s.length - find_if_not isspace s.reverse - find_if_not isspace s) := by
    unfold trim_copy
    simp only [ge_iff_le]
    rw [if_neg (by omega)]
  rw [List.getElem?_reverse (by omega)] at hy
  refine ⟨⟨x, ?_, hpx⟩, ⟨y, ?_, hpy⟩⟩
  · rw [heq, List.getElem?_take_of_lt (by omega), List.getElem?_drop]
    simpa using hx
  · have hl : (trim_copy s).length
        = s.length - find_if_not isspace s.reverse - find_if_not isspace s := by
      rw [heq, List.length_take, List.length_drop]
      omega
    rw [List.getElem?_reverse (by omega), hl, heq, List.getElem?_take_of_lt (by omega),
      List.getElem?_drop, ← hy]
    congr 1
    omega

/-- Trimming twice is trimming once. -/
theorem trim_copy_idem (s : Str) : trim_copy (trim_copy s) = trim_copy s := by
  by_cases h : trim_copy s = []
  · rw [h]; rfl
  · obtain ⟨⟨x, hx, hpx⟩, ⟨y, hy, hpy⟩⟩ := trim_copy_ends s h
    exact trim_copy_fixed _ x y hx hpx hy hpy

theorem to_lower_copy_eq_nil_iff (t : Str) : to_lower_copy t = [] ↔ t = [] := by
  simp [to_lower_copy]

/-! ## One mutator call, case by case -/

theorem add_tag_cases (s : Song) (tag : Str) :
    ((s.add_tag tag).ret = false ∧ (s.add_tag tag).song = s)
      ∨ ((s.add_tag tag).ret = true ∧ trim_copy tag ≠ []
          ∧ (∀ t ∈ s.tags_, to_lower_copy t ≠ to_lower_copy (trim_copy tag))
          ∧ (s.add_tag tag).song = { s with tags_ := s.tags_ ++ [trim_copy tag] }) := by
  simp only [Song.add_tag, List.isEmpty_iff]
  split_ifs with h1 h2
  · exact Or.inl ⟨rfl, rfl⟩
  · exact Or.inl ⟨rfl, rfl⟩
  · refine Or.inr ⟨rfl, h1, ?_, rfl⟩
    intro t ht hm
    exact h2 ((add_tag_scan_iff _ _).2 ⟨t, ht, hm⟩)

theorem remove_tag_cases (s : Song) (tag : Str) :
    ((s.remove_tag tag).ret = false ∧ (s.remove_tag tag).song = s
        ∧ ∀ t ∈ s.tags_, to_lower_copy t ≠ to_lower_copy (trim_copy tag))
      ∨ ∃ i, remove_tag_scan (to_lower_copy (trim_copy tag)) s.tags_ = some i
          ∧ (s.remove_tag tag).ret = true
          ∧ (s.remove_tag tag).song = { s with tags_ := s.tags_.eraseIdx i } := by
  simp only [Song.remove_tag]
  cases hscan : remove_tag_scan (to_lower_copy (trim_copy tag)) s.tags_ with
  | none => exact Or.inl ⟨rfl, rfl, (remove_tag_scan_none_iff _ _).1 hscan⟩
  | some i => exact Or.inr ⟨i, rfl, rfl, rfl⟩

/-- No mutator touches the id or the valid flag. -/
theorem mutate_id_valid (s : Song) (m : Mutation) :
    (s.mutate m).song.id_ = s.id_ ∧ (s.mutate m).song.valid_ = s.valid_ := by
  cases m with
  | set_title t => simp only [Song.mutate, Song.set_title]; split_ifs <;> exact ⟨rfl, rfl⟩
  | set_artist a => simp only [Song.mutate, Song.set_artist]; split_ifs <;> exact ⟨rfl, rfl⟩
  | set_duration sec =>
    simp only [Song.mutate, Song.set_duration]; split_ifs <;> exact ⟨rfl, rfl⟩
  | set_rating r => simp only [Song.mutate, Song.set_rating]; split_ifs <;> exact ⟨rfl, rfl⟩
  | add_tag tag =>
    simp only [Song.mutate]
    rcases add_tag_cases s tag with h | h
    · rw [h.2]; exact ⟨rfl, rfl⟩
    · rw [h.2.2.2]; exact ⟨rfl, rfl⟩
  | remove_tag tag =>
    simp only [Song.mutate]
    rcases remove_tag_cases s tag with h | ⟨i, _, _, h⟩
    · rw [h.2.1]; exact ⟨rfl, rfl⟩
    · rw [h]; exact ⟨rfl, rfl⟩

/-- Every mutator keeps the tags non-empty, trimmed and pairwise distinct,
whatever the other fields hold. -/
theorem mutate_tags (s : Song) (m : Mutation) (h1 : tags_trimmed s.tags_)
    (h2 : tags_distinct s.tags_) :
    tags_trimmed (s.mutate m).song.tags_ ∧ tags_distinct (s.mutate m).song.tags_ := by
  cases m with
  | set_title t =>
    simp only [Song.mutate, Song.set_title]; split_ifs <;> exact ⟨h1, h2⟩
  | set_artist a =>
    simp only [Song.mutate, Song.set_artist]; split_ifs <;> exact ⟨h1, h2⟩
  | set_duration sec =>
    simp only [Song.mutate, Song.set_duration]; split_ifs <;> exact ⟨h1, h2⟩
  | set_rating r =>
    simp only [Song.mutate, Song.set_rating]; split_ifs <;> exact ⟨h1, h2⟩
  | add_tag tag =>
    simp only [Song.mutate]
    rcases add_tag_cases s tag with h | ⟨_, hne, hno, h⟩
    · rw [h.2]; exact ⟨h1, h2⟩
    · rw [h]
      constructor
      · intro t ht
        simp only [List.mem_append, List.mem_singleton] at ht
        rcases ht with ht | ht
        · exact h1 t ht
        · rw [ht]; exact ⟨hne, trim_copy_idem tag⟩
      · unfold tags_distinct at h2 ⊢
        rw [List.pairwise_append]
        refine ⟨h2, List.pairwise_singleton _ _, ?_⟩
        intro a ha b hb
        rw [List.mem_singleton] at hb
        rw [hb]
        exact hno a ha
  | remove_tag tag =>
    simp only [Song.mutate]
    rcases remove_tag_cases s tag with h | ⟨i, _, _, h⟩
    · rw [h.2.1]; exact ⟨h1, h2⟩
    · rw [h]
      constructor
      · intro t ht
        exact h1 t ((List.eraseIdx_sublist _ _).subset ht)
      · exact List.Pairwise.sublist (List.eraseIdx_sublist _ _) h2

/-- Every mutator keeps the whole data invariant. -/
theorem mutate_invariant (s : Song) (m : Mutation) (h : s.invariant) :
    (s.mutate m).song.invariant := by
  obtain ⟨ht, htt, ha, hta, hd, hr1, hr5, hg1, hg2⟩ := h
  have htags := mutate_tags s m hg1 hg2
  cases m with
  | set_title t =>
    simp only [Song.mutate, Song.set_title, List.isEmpty_iff] at htags ⊢
    split_ifs with h1
    · exact ⟨ht, htt, ha, hta, hd, hr1, hr5, hg1, hg2⟩
    · exact ⟨h1, trim_copy_idem t, ha, hta, hd, hr1, hr5, hg1, hg2⟩
  | set_artist a =>
    simp only [Song.mutate, Song.set_artist, List.isEmpty_iff] at htags ⊢
    split_ifs with h1
    · exact ⟨ht, htt, ha, hta, hd, hr1, hr5, hg1, hg2⟩
    · exact ⟨ht, htt, h1, trim_copy_idem a, hd, hr1, hr5, hg1, hg2⟩
  | set_duration sec =>
    simp only [Song.mutate, Song.set_duration] at htags ⊢
    split_ifs with h1
    · exact ⟨ht, htt, ha, hta, hd, hr1, hr5, hg1, hg2⟩
    · exact ⟨ht, htt, ha, hta, by show sec > 0; omega, hr1, hr5, hg1, hg2⟩
  | set_rating r =>
    simp only [Song.mutate, Song.set_rating] at htags ⊢
    split_ifs with h1
    · exact ⟨ht, htt, ha, hta, hd, hr1, hr5, hg1, hg2⟩
    · exact ⟨ht, htt, ha, hta, hd, by show 1 ≤ r; omega, by show r ≤ 5; omega, hg1, hg2⟩
  | add_tag tag =>
    simp only [Song.mutate] at htags ⊢
    rcases add_tag_cases s tag with h | ⟨_, _, _, h⟩
    · rw [h.2]; exact ⟨ht, htt, ha, hta, hd, hr1, hr5, hg1, hg2⟩
    · rw [h] at htags ⊢
      exact ⟨ht, htt, ha, hta, hd, hr1, hr5, htags.1, htags.2⟩
  | remove_tag tag =>
    simp only [Song.mutate] at htags ⊢
    rcases remove_tag_cases s tag with h | ⟨i, _, _, h⟩
    · rw [h.2.1]; exact ⟨ht, htt, ha, hta, hd, hr1, hr5, hg1, hg2⟩
    · rw [h] at htags ⊢
      exact ⟨ht, htt, ha, hta, hd, hr1, hr5, htags.1, htags.2⟩

theorem run_invariant (s : Song) (ms : List Mutation) (h : s.invariant) :
    (s.run ms).invariant := by
  induction ms generalizing s with
  | nil => exact h
  | cons m rest ih => exact ih _ (mutate_invariant s m h)

theorem run_tags (s : Song) (ms : List Mutation) (h1 : tags_trimmed s.tags_)
    (h2 : tags_distinct s.tags_) :
    tags_trimmed (s.run ms).tags_ ∧ tags_distinct (s.run ms).tags_ := by
  induction ms generalizing s with
  | nil => exact ⟨h1, h2⟩
  | cons m rest ih =>
    have := mutate_tags s m h1 h2
    exact ih _ this.1 this.2

theorem run_id_valid (s : Song) (ms : List Mutation) :
    (s.run ms).id_ = s.id_ ∧ (s.run ms).valid_ = s.valid_ := by
  induction ms generalizing s with
  | nil => exact ⟨rfl, rfl⟩
  | cons m rest ih =>
    have h1 := ih (s.mutate m).song
    have h2 := mutate_id_valid s m
    exact ⟨h1.1.trans h2.1, h1.2.trans h2.2⟩

/-- A successful construction establishes the data invariant. -/
theorem ctor_invariant (id0 d0 r0 n : Int) (title artist : Str) (duration_sec rating : Int)
    (h : (Song.ctor (Song.unpopulated id0 d0 r0) n title artist duration_sec rating).song.valid_
          = true) :
    (Song.ctor (Song.unpopulated id0 d0 r0) n title artist duration_sec
      rating).song.invariant := by
  rcases ctor_eq (Song.unpopulated id0 d0 r0) n title artist duration_sec rating with h1 | h1
  · obtain ⟨ht, ha, hd, hr1, hr5, hsong, _⟩ := h1
    rw [hsong]
    refine ⟨ht, trim_copy_idem title, ha, trim_copy_idem artist, hd, hr1, hr5, ?_, ?_⟩
    · intro t ht2
      simp [Song.unpopulated] at ht2
    · simp [tags_distinct, Song.unpopulated]
  · rw [h1.2.1] at h
    simp [Song.unpopulated] at h

/-- When no tag of the list matches and the one pushed at the back does, the
scan of `remove_tag` stops at the back and erasing there restores the list. -/
theorem remove_tag_scan_append (lowerTag : Str) (tags : List Str) (x : Str)
    (hno : ∀ t ∈ tags, to_lower_copy t ≠ lowerTag) (hx : to_lower_copy x = lowerTag) :
    ∃ i, remove_tag_scan lowerTag (tags ++ [x]) = some i ∧ (tags ++ [x]).eraseIdx i = tags := by
  induction tags with
  | nil => exact ⟨0, by simp [remove_tag_scan, hx], rfl⟩
  | cons y rest ih =>
    have hy : to_lower_copy y ≠ lowerTag := hno y (List.mem_cons_self _ _)
    obtain ⟨i, hi, he⟩ := ih (fun t ht => hno t (List.mem_cons_of_mem _ ht))
    refine ⟨i + 1, ?_, ?_⟩
    · show remove_tag_scan lowerTag (y :: (rest ++ [x])) = some (i + 1)
      simp only [remove_tag_scan, hy, if_false, hi, Option.map_some']
    · simp only [List.cons_append, List.eraseIdx_cons_succ, he]

/-- With pairwise distinct tags, erasing the first match leaves no match. -/
theorem remove_tag_scan_erase (lowerTag : Str) (tags : List Str) (i : Nat)
    (hd : tags_distinct tags) (h : remove_tag_scan lowerTag tags = some i) :
    ∀ u ∈ tags.eraseIdx i, to_lower_copy u ≠ lowerTag := by
  induction tags generalizing i with
  | nil => simp [remove_tag_scan] at h
  | cons x rest ih =>
    unfold tags_distinct at hd
    rw [List.pairwise_cons] at hd
    by_cases hx : to_lower_copy x = lowerTag
    · simp only [remove_tag_scan, hx, if_true, Option.some.injEq] at h
      subst h
      intro u hu
      simp only [List.eraseIdx_cons_zero] at hu
      intro hm
      exact hd.1 u hu (hx.trans hm.symm)
    · simp only [remove_tag_scan, hx, if_false, Option.map_eq_some'] at h
      obtain ⟨k, hk, rfl⟩ := h
      intro u hu
      simp only [List.eraseIdx_cons_succ, List.mem_cons] at hu
      rcases hu with hu | hu
      · rw [hu]; exact hx
      · exact ih k hd.2 hk u hu

/-! ## The claims about reachable entries -/

/-- A non-empty text equal to its own `trim_copy` has no white space at
either end. -/
theorem trimmed_ends (s : Str) (h1 : s ≠ []) (h2 : trim_copy s = s) :
    (∀ x, s.head? = some x → isspace x = false)
      ∧ ∀ y, s.getLast? = some y → isspace y = false := by
  have h := trim_copy_ends s (by rw [h2]; exact h1)
  rw [h2] at h
  obtain ⟨⟨x, hx, hpx⟩, ⟨y, hy, hpy⟩⟩ := h
  constructor
  · intro a ha
    rw [List.head?_eq_getElem?, hx] at ha
    cases ha
    exact hpx
  · intro b hb
    rw [← List.head?_reverse, List.head?_eq_getElem?, hy] at hb
    cases hb
    exact hpy

/-- C13: in every state reached from a successful construction by any finite
sequence of `set_title`, `set_artist`, `set_duration`, `set_rating`, `add_tag`
and `remove_tag` calls with arbitrary arguments, title and artist are non-empty
and equal to their own `trim_copy` (so they neither start nor end with white
space), the duration is positive, the rating lies in 1..5, every tag is
non-empty and equal to its own `trim_copy`, and the tags are pairwise distinct
under `to_lower_copy`. -/
theorem reachable_invariant (id0 d0 r0 n : Int) (title artist : Str)
    (duration_sec rating : Int) (ms : List Mutation)
    (h : (Song.ctor (Song.unpopulated id0 d0 r0) n title artist duration_sec rating).song.valid_
          = true) :
    (Song.run (Song.ctor (Song.unpopulated id0 d0 r0) n title artist duration_sec rating).song
      ms).invariant
    ∧ (∀ t, t = (Song.run (Song.ctor (Song.unpopulated id0 d0 r0) n title artist duration_sec
            rating).song ms).title_
          ∨ t = (Song.run (Song.ctor (Song.unpopulated id0 d0 r0) n title artist duration_sec
            rating).song ms).artist_
          ∨ t ∈ (Song.run (Song.ctor (Song.unpopulated id0 d0 r0) n title artist duration_sec
            rating).song ms).tags_ →
        (∀ x, t.head? = some x → isspace x = false)
          ∧ ∀ y, t.getLast? = some y → isspace y = false) := by
  have hinv := run_invariant _ ms (ctor_invariant id0 d0 r0 n title artist duration_sec rating h)
  refine ⟨hinv, ?_⟩
  obtain ⟨ht, htt, ha, hta, _, _, _, hg, _⟩ := hinv
  intro t hcase
  rcases hcase with rfl | rfl | hmem
  · exact trimmed_ends _ ht htt
  · exact trimmed_ends _ ha hta
  · exact trimmed_ends _ (hg t hmem).1 (hg t hmem).2

theorem reachable_invariant_witness :
    (Song.run (Song.ctor (Song.unpopulated 0 0 0) 1 " Hey Jude ".toList "Beatles".toList 431
        5).song
      [Mutation.add_tag " Rock ".toList, Mutation.add_tag "rock".toList,
        Mutation.set_title " \t ".toList, Mutation.set_rating 9,
        Mutation.add_tag "Pop".toList, Mutation.remove_tag "ROCK".toList,
        Mutation.set_artist " The Beatles ".toList]).invariant :=
  (reachable_invariant 0 0 0 1 " Hey Jude ".toList "Beatles".toList 431 5 _ (by decide)).1

/-- C14: when `add_tag(t)` returns true and `u` has the same lower-cased
trimmed text as `t`, an immediately following `remove_tag(u)` returns true and
puts the tag list (indeed the whole entry) back as it was before the
`add_tag`. -/
theorem add_then_remove (s : Song) (t u : Str)
    (htu : to_lower_copy (trim_copy u) = to_lower_copy (trim_copy t))
    (h : (s.add_tag t).ret = true) :
    ((s.add_tag t).song.remove_tag u).ret = true
    ∧ ((s.add_tag t).song.remove_tag u).song.tags_ = s.tags_
    ∧ ((s.add_tag t).song.remove_tag u).song = s := by
  rcases add_tag_cases s t with h1 | ⟨_, _, hno, hsong⟩
  · rw [h1.1] at h; cases h
  · obtain ⟨i, hi, he⟩ := remove_tag_scan_append (to_lower_copy (trim_copy t)) s.tags_
      (trim_copy t) hno rfl
    rw [hsong]
    simp only [Song.remove_tag, htu, hi, he]
    exact ⟨trivial, trivial, trivial⟩

theorem add_then_remove_witness :
    ((Song.add_tag ⟨1, "T".toList, "A".toList, 10, 3, [], true⟩ "Rock".toList).song.remove_tag
        "ROCK".toList).ret = true
    ∧ ((Song.add_tag ⟨1, "T".toList, "A".toList, 10, 3, [], true⟩ "Rock".toList).song.remove_tag
        "ROCK".toList).song.tags_ = []
    ∧ ((Song.add_tag ⟨1, "T".toList, "A".toList, 10, 3, [], true⟩ "Rock".toList).song.remove_tag
        "ROCK".toList).song = ⟨1, "T".toList, "A".toList, 10, 3, [], true⟩ :=
  add_then_remove ⟨1, "T".toList, "A".toList, 10, 3, [], true⟩ "Rock".toList "ROCK".toList
    (by decide) (by decide)

/-- C15: when `add_tag(t)` returns true and `u` has the same lower-cased
trimmed text as `t`, an immediately following `add_tag(u)` returns false and
leaves the tag list, content and length, as the first call left it. -/
theorem add_twice (s : Song) (t u : Str)
    (htu : to_lower_copy (trim_copy u) = to_lower_copy (trim_copy t))
    (h : (s.add_tag t).ret = true) :
    ((s.add_tag t).song.add_tag u).ret = false
    ∧ ((s.add_tag t).song.add_tag u).song.tags_ = (s.add_tag t).song.tags_
    ∧ ((s.add_tag t).song.add_tag u).song.tags_.length = s.tags_.length + 1 := by
  rcases add_tag_cases s t with h1 | ⟨_, _, _, hsong⟩
  · rw [h1.1] at h; cases h
  · have hlen : (s.add_tag t).song.tags_.length = s.tags_.length + 1 := by
      rw [hsong]; simp
    rcases add_tag_cases (s.add_tag t).song u with h2 | ⟨_, _, hno, _⟩
    · rw [h2.2]
      exact ⟨h2.1, rfl, hlen⟩
    · exfalso
      apply hno (trim_copy t) _ htu.symm
      rw [hsong]
      simp

theorem add_twice_witness :
    ((Song.add_tag ⟨1, "T".toList, "A".toList, 10, 3, [], true⟩ "Rock".toList).song.add_tag
        "rock".toList).ret = false
    ∧ ((Song.add_tag ⟨1, "T".toList, "A".toList, 10, 3, [], true⟩ "Rock".toList).song.add_tag
        "rock".toList).song.tags_
        = (Song.add_tag ⟨1, "T".toList, "A".toList, 10, 3, [], true⟩ "Rock".toList).song.tags_
    ∧ ((Song.add_tag ⟨1, "T".toList, "A".toList, 10, 3, [], true⟩ "Rock".toList).song.add_tag
        "rock".toList).song.tags_.length = 0 + 1 :=
  add_twice ⟨1, "T".toList, "A".toList, 10, 3, [], true⟩ "Rock".toList "rock".toList
    (by decide) (by decide)

/-- C16: none of `set_title`, `set_artist`, `set_duration`, `set_rating`,
`add_tag`, `remove_tag` changes the valid flag or the id, on any entry, with any
argument, whatever it returns; so neither does any sequence of such calls, and
an entry whose construction failed stays invalid. -/
theorem valid_and_id_fixed (s : Song) (t a : Str) (sec r : Int) (tag tag2 : Str)
    (ms : List Mutation) (id0 d0 r0 n : Int) (title artist : Str)
    (duration_sec rating : Int) :
    ((s.set_title t).song.valid_ = s.valid_ ∧ (s.set_title t).song.id_ = s.id_)
    ∧ ((s.set_artist a).song.valid_ = s.valid_ ∧ (s.set_artist a).song.id_ = s.id_)
    ∧ ((s.set_duration sec).song.valid_ = s.valid_ ∧ (s.set_duration sec).song.id_ = s.id_)
    ∧ ((s.set_rating r).song.valid_ = s.valid_ ∧ (s.set_rating r).song.id_ = s.id_)
    ∧ ((s.add_tag tag).song.valid_ = s.valid_ ∧ (s.add_tag tag).song.id_ = s.id_)
    ∧ ((s.remove_tag tag2).song.valid_ = s.valid_ ∧ (s.remove_tag tag2).song.id_ = s.id_)
    ∧ ((s.run ms).valid_ = s.valid_ ∧ (s.run ms).id_ = s.id_)
    ∧ ((Song.ctor (Song.unpopulated id0 d0 r0) n title artist duration_sec rating).song.valid_
          = false →
        (Song.run (Song.ctor (Song.unpopulated id0 d0 r0) n title artist duration_sec
          rating).song ms).valid_ = false) := by
  refine ⟨?_, ?_, ?_, ?_, ?_, ?_, ?_, ?_⟩
  · exact (mutate_id_valid s (Mutation.set_title t)).symm
  · exact (mutate_id_valid s (Mutation.set_artist a)).symm
  · exact (mutate_id_valid s (Mutation.set_duration sec)).symm
  · exact (mutate_id_valid s (Mutation.set_rating r)).symm
  · exact (mutate_id_valid s (Mutation.add_tag tag)).symm
  · exact (mutate_id_valid s (Mutation.remove_tag tag2)).symm
  · exact (run_id_valid s ms).symm
  · intro h
    rw [(run_id_valid _ ms).2, h]

theorem valid_and_id_fixed_witness :
    (Song.run (Song.ctor (Song.unpopulated 0 0 0) 1 " ".toList "A".toList 10 3).song
      [Mutation.set_title "T".toList, Mutation.add_tag "x".toList,
        Mutation.set_rating 4]).valid_ = false :=
  (valid_and_id_fixed (Song.unpopulated 0 0 0) [] [] 0 0 [] []
      [Mutation.set_title "T".toList, Mutation.add_tag "x".toList, Mutation.set_rating 4]
      0 0 0 1 " ".toList "A".toList 10 3).2.2.2.2.2.2.2 (by decide)

/-- C19: on an entry whose tags are pairwise distinct under `to_lower_copy`,
when `remove_tag(t)` returns true no remaining tag matches `t`
case-insensitively: an immediately repeated `remove_tag(t)` returns false, and
`add_tag(t)` returns true provided the trimmed `t` is non-empty. -/
theorem remove_then_gone (s : Song) (t : Str) (hd : tags_distinct s.tags_)
    (h : (s.remove_tag t).ret = true) :
    (∀ x ∈ (s.remove_tag t).song.tags_, to_lower_copy x ≠ to_lower_copy (trim_copy t))
    ∧ ((s.remove_tag t).song.remove_tag t).ret = false
    ∧ (trim_copy t ≠ [] → ((s.remove_tag t).song.add_tag t).ret = true) := by
  rcases remove_tag_cases s t with h1 | ⟨i, hi, _, hsong⟩
  · rw [h1.1] at h; cases h
  · have hgone : ∀ x ∈ (s.remove_tag t).song.tags_,
        to_lower_copy x ≠ to_lower_copy (trim_copy t) := by
      rw [hsong]
      exact remove_tag_scan_erase _ _ i hd hi
    refine ⟨hgone, ?_, ?_⟩
    · rcases remove_tag_cases (s.remove_tag t).song t with h2 | ⟨j, hj, _, _⟩
      · exact h2.1
      · obtain ⟨⟨x, hx, hm⟩, _⟩ := remove_tag_scan_some _ _ j hj
        exact absurd hm (hgone x (List.getElem?_mem hx))
    · intro hne
      simp only [Song.add_tag, List.isEmpty_iff]
      rw [if_neg hne]
      have hscan : ¬ add_tag_scan (to_lower_copy (trim_copy t)) (s.remove_tag t).song.tags_
          = true := by
        intro hs
        obtain ⟨x, hx, hm⟩ := (add_tag_scan_iff _ _).1 hs
        exact hgone x hx hm
      rw [if_neg hscan]

theorem remove_then_gone_witness :
    (∀ x ∈ (Song.remove_tag ⟨1, "T".toList, "A".toList, 10, 3,
          ["Rock".toList, "Pop".toList], true⟩ " ROCK".toList).song.tags_,
        to_lower_copy x ≠ to_lower_copy (trim_copy " ROCK".toList))
    ∧ ((Song.remove_tag ⟨1, "T".toList, "A".toList, 10, 3,
          ["Rock".toList, "Pop".toList], true⟩ " ROCK".toList).song.remove_tag
        " ROCK".toList).ret = false
    ∧ (trim_copy " ROCK".toList ≠ [] →
        ((Song.remove_tag ⟨1, "T".toList, "A".toList, 10, 3,
          ["Rock".toList, "Pop".toList], true⟩ " ROCK".toList).song.add_tag
          " ROCK".toList).ret = true) :=
  remove_then_gone ⟨1, "T".toList, "A".toList, 10, 3, ["Rock".toList, "Pop".toList], true⟩
    " ROCK".toList (by simp [tags_distinct]; decide) (by decide)

/-- C20: `remove_tag` has no guard against an empty argument, yet on every
entry reached from a construction (successful or not) through the mutators,
where every stored tag is non-empty, `remove_tag` of an empty or
white-space-only text returns false and leaves the entry as it was. -/
theorem remove_blank_rejected (id0 d0 r0 n : Int) (title artist : Str)
    (duration_sec rating : Int) (ms : List Mutation) (t : Str)
    (ht : ∀ ch ∈ t, isspace ch = true) :
    ((Song.run (Song.ctor (Song.unpopulated id0 d0 r0) n title artist duration_sec rating).song
        ms).remove_tag t).ret = false
    ∧ ((Song.run (Song.ctor (Song.unpopulated id0 d0 r0) n title artist duration_sec rating).song
        ms).remove_tag t).song
        = Song.run (Song.ctor (Song.unpopulated id0 d0 r0) n title artist duration_sec
            rating).song ms := by
  have h0 : (Song.ctor (Song.unpopulated id0 d0 r0) n title artist duration_sec
      rating).song.tags_ = [] := by
    rcases ctor_eq (Song.unpopulated id0 d0 r0) n title artist duration_sec rating with h1 | h1
    · rw [h1.2.2.2.2.2.1]; rfl
    · rw [h1.2.1]; rfl
  have htags := run_tags (Song.ctor (Song.unpopulated id0 d0 r0) n title artist duration_sec
      rating).song ms (by rw [h0]; intro x hx; cases hx) (by rw [h0]; exact List.Pairwise.nil)
  have htrim : trim_copy t = [] := (trim_copy_eq_nil_iff t).2 ht
  rcases remove_tag_cases (Song.run (Song.ctor (Song.unpopulated id0 d0 r0) n title artist
      duration_sec rating).song ms) t with h1 | ⟨i, hi, _, _⟩
  · exact ⟨h1.1, h1.2.1⟩
  · exfalso
    obtain ⟨⟨x, hx, hm⟩, _⟩ := remove_tag_scan_some _ _ i hi
    rw [htrim] at hm
    have hxe : x = [] := (to_lower_copy_eq_nil_iff x).1 hm
    exact (htags.1 x (List.getElem?_mem hx)).1 hxe

theorem remove_blank_rejected_witness :
    ((Song.run (Song.ctor (Song.unpopulated 0 0 0) 1 "T".toList "A".toList 10 3).song
        [Mutation.add_tag "Rock".toList, Mutation.add_tag " ".toList]).remove_tag
        " \t".toList).ret = false
    ∧ ((Song.run (Song.ctor (Song.unpopulated 0 0 0) 1 "T".toList "A".toList 10 3).song
        [Mutation.add_tag "Rock".toList, Mutation.add_tag " ".toList]).remove_tag
        " \t".toList).song
        = Song.run (Song.ctor (Song.unpopulated 0 0 0) 1 "T".toList "A".toList 10 3).song
            [Mutation.add_tag "Rock".toList, Mutation.add_tag " ".toList] :=
  remove_blank_rejected 0 0 0 1 "T".toList "A".toList 10 3
    [Mutation.add_tag "Rock".toList, Mutation.add_tag " ".toList] " \t".toList (by decide)

/-! ## Line breaks in the rendered text -/

theorem line_break_digitChar (m : Nat) (h : m < 10) :
    line_break (Nat.digitChar m) = false := by
  interval_cases m <;> rfl

theorem line_break_toDigitsCore (fuel n : Nat) (ds : List Char)
    (h : ds.any line_break = false) :
    (Nat.toDigitsCore 10 fuel n ds).any line_break = false := by
  induction fuel generalizing n ds with
  | zero => simpa [Nat.toDigitsCore] using h
  | succ k ih =>
    have hd : (Nat.digitChar (n % 10) :: ds).any line_break = false := by
      simp only [List.any_cons, line_break_digitChar (n % 10) (Nat.mod_lt _ (by decide)), h,
        Bool.or_self]
    simp only [Nat.toDigitsCore]
    split_ifs
    · exact hd
    · exact ih _ _ hd

theorem line_break_decimal (n : Int) : (decimal n).any line_break = false := by
  unfold decimal
  have h := line_break_toDigitsCore (n.natAbs + 1) n.natAbs [] rfl
  split_ifs
  · simp only [List.any_cons, Nat.toDigits, h, Bool.or_false]
    rfl
  · exact h

theorem any_intercalate (p : Char → Bool) (sep : Str) (hsep : sep.any p = false)
    (tags : List Str) :
    (sep.intercalate tags).any p = tags.any (fun t => t.any p) := by
  cases tags with
  | nil => rfl
  | cons t rest =>
    rw [intercalate_cons]
    simp only [List.any_append, List.any_cons]
    congr 1
    induction rest with
    | nil => rfl
    | cons u rest2 ih =>
      simp only [List.map_cons, List.flatten_cons, List.any_append, List.any_cons, hsep,
        Bool.false_or, ih]

/-- With a rating in 1..5 the rendered text holds a line break exactly when
the title, the artist or a tag holds one. -/
theorem render_line_break_iff (s : Song) (h1 : 1 ≤ s.rating_) (h5 : s.rating_ ≤ 5) :
    ∃ out, s.render = some out
      ∧ out.any line_break
          = (s.title_.any line_break || s.artist_.any line_break
              || s.tags_.any (fun t => t.any line_break)) := by
  refine ⟨_, render_format s h1 h5, ?_⟩
  have hstar : (List.replicate s.rating_.toNat '*').any line_break = false := by
    rw [List.any_eq_false]
    intro x hx
    rw [List.eq_of_mem_replicate hx]
    decide
  have hsep : (", ".toList).any line_break = false := by decide
  have e1 : ("[#".toList).any line_break = false := by decide
  have e2 : ("] ".toList).any line_break = false := by decide
  have e3 : (" - ".toList).any line_break = false := by decide
  have e4 : (" (".toList).any line_break = false := by decide
  have e5 : ("s) ".toList).any line_break = false := by decide
  have e6 : ("  [tags: ".toList).any line_break = false := by decide
  have e7 : ("]".toList).any line_break = false := by decide
  by_cases ht : s.tags_ = []
  · simp only [ht, if_true, List.any_append, e1, e2, e3, e4, e5, hstar, line_break_decimal,
      List.any_nil, Bool.false_or, Bool.or_false]
    exact Bool.or_comm _ _
  · simp only [ht, if_false, List.any_append, e1, e2, e3, e4, e5, e6, e7, hstar,
      line_break_decimal, any_intercalate line_break _ hsep, Bool.false_or, Bool.or_false]
    rw [Bool.or_comm (s.artist_.any line_break)]

/-- C17, as the code has it: the text written for a valid reachable entry
holds a line break exactly when the stored title, the stored artist or one of
the tags holds one (`trim_copy` strips white space at the two ends only); so
the text is a single line whenever title, artist and tags hold no line
break. -/
theorem render_single_line_of_fields (id0 d0 r0 n : Int) (title artist : Str)
    (duration_sec rating : Int) (ms : List Mutation)
    (h : (Song.ctor (Song.unpopulated id0 d0 r0) n title artist duration_sec rating).song.valid_
          = true)
    (s : Song)
    (hs : s = Song.run (Song.ctor (Song.unpopulated id0 d0 r0) n title artist duration_sec
            rating).song ms) :
    ∃ out, s.render = some out
      ∧ out.any line_break
          = (s.title_.any line_break || s.artist_.any line_break
              || s.tags_.any (fun t => t.any line_break))
      ∧ (s.title_.any line_break = false → s.artist_.any line_break = false →
          s.tags_.any (fun t => t.any line_break) = false → out.any line_break = false) := by
  have hinv := run_invariant _ ms (ctor_invariant id0 d0 r0 n title artist duration_sec rating h)
  rw [← hs] at hinv
  obtain ⟨_, _, _, _, _, hr1, hr5, _, _⟩ := hinv
  obtain ⟨out, ho, he⟩ := render_line_break_iff s hr1 hr5
  refine ⟨out, ho, he, ?_⟩
  intro a b c
  rw [he, a, b, c]
  rfl

theorem render_single_line_of_fields_witness :
    ∃ out, (Song.run (Song.ctor (Song.unpopulated 0 0 0) 1 "Hey Jude\n".toList
          "Beatles".toList 431 5).song [Mutation.add_tag "Rock".toList]).render = some out
      ∧ out.any line_break = false := by
  obtain ⟨out, ho, _, hno⟩ := render_single_line_of_fields 0 0 0 1 "Hey Jude\n".toList
    "Beatles".toList 431 5 [Mutation.add_tag "Rock".toList] (by decide) _ rfl
  exact ⟨out, ho, hno (by decide) (by decide) (by decide)⟩

/-- C17, as stated, fails: the title "a", line feed, "b" passes the
constructor (the line feed is not at either end), and the text written for the
resulting valid entry has a line feed in it. -/
theorem render_single_line_counterexample :
    (Song.ctor (Song.unpopulated 0 0 0) 1 "a\nb".toList "x".toList 1 1).song.valid_ = true
    ∧ (Song.ctor (Song.unpopulated 0 0 0) 1 "a\nb".toList "x".toList 1 1).song.render
        = some "[#1] x - a\nb (1s) *".toList
    ∧ ("[#1] x - a\nb (1s) *".toList).any line_break = true := by
  decide

/-! ## Diagnostics of the constructor -/

/-- C18: a successful construction writes no diagnostic; a failing one writes
exactly one, the message of the first violated constraint in the order title,
artist, duration, rating; the four messages are pairwise distinct. -/
theorem ctor_diagnostics (id0 d0 r0 n : Int) (title artist : Str) (duration_sec rating : Int) :
    ((Song.ctor (Song.unpopulated id0 d0 r0) n title artist duration_sec rating).song.valid_
        = true →
      (Song.ctor (Song.unpopulated id0 d0 r0) n title artist duration_sec rating).out = [])
    ∧ ((Song.ctor (Song.unpopulated id0 d0 r0) n title artist duration_sec rating).song.valid_
        = false →
      (Song.ctor (Song.unpopulated id0 d0 r0) n title artist duration_sec rating).out.length
        = 1)
    ∧ (trim_copy title = [] →
      (Song.ctor (Song.unpopulated id0 d0 r0) n title artist duration_sec rating).out
        = ["[错误] 标题不能为空\n"])
    ∧ (trim_copy title ≠ [] → trim_copy artist = [] →
      (Song.ctor (Song.unpopulated id0 d0 r0) n title artist duration_sec rating).out
        = ["[错误] 艺人不能为空\n"])
    ∧ (trim_copy title ≠ [] → trim_copy artist ≠ [] → duration_sec ≤ 0 →
      (Song.ctor (Song.unpopulated id0 d0 r0) n title artist duration_sec rating).out
        = ["[错误] 时长必须为正整数（秒）\n"])
    ∧ (trim_copy title ≠ [] → trim_copy artist ≠ [] → duration_sec > 0 →
        (rating < 1 ∨ rating > 5) →
      (Song.ctor (Song.unpopulated id0 d0 r0) n title artist duration_sec rating).out
        = ["[错误] 评分必须在 1...5 之间\n"])
    ∧ ["[错误] 标题不能为空\n", "[错误] 艺人不能为空\n", "[错误] 时长必须为正整数（秒）\n",
        "[错误] 评分必须在 1...5 之间\n"].Nodup := by
  refine ⟨?_, ?_, ?_, ?_, ?_, ?_, by decide⟩
  all_goals
    simp only [Song.ctor, List.isEmpty_iff, Song.unpopulated]
    split_ifs <;> simp_all

theorem ctor_diagnostics_witness :
    (Song.ctor (Song.unpopulated 0 0 0) 1 "T".toList " ".toList 0 9).out
      = ["[错误] 艺人不能为空\n"] :=
  (ctor_diagnostics 0 0 0 1 "T".toList " ".toList 0 9).2.2.2.1 (by decide) (by decide)

end SongCpp
